import Mathlib

/-!
Verification development for the background note-processing pipeline of the
crumb repository.

The embedding covers:
- the StorageService note repository (validateFoodLogEntry, saveNoteForProcessing,
  getFoodLogs, updateFoodLogEntry, updateNoteWithExtraction, markNoteProcessingFailed);
- the BackgroundProcessingService worker (addToProcessingQueue, processQueue,
  processNote) including its extraction-response normalization.

Modelling conventions:
- JSON values are the inductive JsonVal; JS truthiness is the function truthy;
  property access on a JS value is getField (returning none for the JS
  undefined result).
- Timestamps are kept as the ISO strings the source stores; the JS
  Date-parsing used only by the query-time sort comparator is abstracted as a
  parameter dv : String -> Int (theorems are proved for every dv).
- The current instant produced by new Date().toISOString() is a parameter now;
  generateUniqueId() output is a parameter freshId (its uniqueness, which the
  source gets from timestamp + random suffix, becomes a hypothesis).
- AsyncStorage holds the foodLogs collection; it is modelled as the
  List Entry that JSON.parse of that key yields.  The app-metadata side
  channel (entry counts, per-source stats) touches a different storage key and
  never feeds back into the note collection, so it is not part of the state.
- Fallible external effects (the extraction fetch) are an oracle
  ext : Entry -> FetchOutcome; rejected covers both a rejected fetch and the
  60s timeout rejection, response covers a settled HTTP response.
- The runtime is single-threaded with run-to-completion semantics between
  await points; the drain loop is therefore modelled as a pure recursion over
  the queued ids, and the extraction calls it performs are recorded in an
  explicit trace.
-/

namespace Crumb

/-- JSON value, the type of parsed webhook bodies and of the extracted
foods/reactions payloads stored on an entry. -/
inductive JsonVal where
  | null : JsonVal
  | bool : Bool → JsonVal
  | num : Int → JsonVal
  | str : String → JsonVal
  | arr : List JsonVal → JsonVal
  | obj : List (String × JsonVal) → JsonVal

/-- First value bound to a key in a JS object literal, none when absent. -/
def lookupField (k : String) : List (String × JsonVal) → Option JsonVal
  | [] => none
  | (k2, v) :: rest => if k2 == k then some v else lookupField k rest

/-- JS property access d.k: some value on an object that has the key,
none (the JS undefined) otherwise. -/
def getField (d : JsonVal) (k : String) : Option JsonVal :=
  match d with
  | JsonVal.obj fields => lookupField k fields
  | _ => none

/-- JS truthiness of a JSON value: null, false, 0 and the empty string are
falsy, every array and object is truthy. -/
def truthy : JsonVal → Bool
  | JsonVal.null => false
  | JsonVal.bool b => b
  | JsonVal.num n => n != 0
  | JsonVal.str s => s != ""
  | JsonVal.arr _ => true
  | JsonVal.obj _ => true

/-- JS test v.status === "success" (strict equality against the string). -/
def statusSuccessField (v : JsonVal) : Bool :=
  match getField v "status" with
  | some (JsonVal.str s) => s == "success"
  | _ => false

/-- JS truthiness of the property access v.k (undefined is falsy). -/
def truthyField (v : JsonVal) (k : String) : Bool :=
  match getField v k with
  | some x => truthy x
  | none => false

/-- Whether JS property access on a value raises a TypeError: it does exactly
on null (and undefined, which JSON-parsed data cannot contain); every other
value, objects and primitives alike, supports property access. -/
def jsAccessThrows : JsonVal → Bool
  | JsonVal.null => true
  | _ => false

/-- Response-shape normalization of BackgroundProcessingService.processNote
(src/BackgroundProcessingService.js lines 127-145): an n8n-style array whose
first element carries values.status === "success" and a truthy
values.extractedData, or a direct object with status === "success" and a
truthy extractedData; every other shape throws.  Reading
webhookData.values on a null first element, or body.status on a null body,
raises a TypeError instead of the explicit Error: both are hard failures
caught by the same handler; the engine-specific TypeError message is
abstracted to a constant string. -/
def normalizeExtraction (d : JsonVal) : Except String JsonVal :=
  match d with
  | JsonVal.arr (w :: _) =>
    -- Array.isArray(data) && data.length > 0: n8n webhook format branch
    if jsAccessThrows w then
      Except.error "TypeError: cannot read properties of null"
    else
      match getField w "values" with
      | some v =>
        if truthy v then
          if statusSuccessField v then
            match getField v "extractedData" with
            | some x =>
              if truthy x then Except.ok x
              else Except.error "Invalid n8n extraction response format or status"
            | none => Except.error "Invalid n8n extraction response format or status"
          else Except.error "Invalid n8n extraction response format or status"
        else Except.error "Invalid n8n extraction response format or status"
      | none => Except.error "Invalid n8n extraction response format or status"
  | d2 =>
    -- direct format branch (also reached by the empty array)
    if jsAccessThrows d2 then
      Except.error "TypeError: cannot read properties of null"
    else if statusSuccessField d2 then
      match getField d2 "extractedData" with
      | some x =>
        if truthy x then Except.ok x
        else Except.error "Invalid extraction response format - expected n8n array or direct object"
      | none => Except.error "Invalid extraction response format - expected n8n array or direct object"
    else Except.error "Invalid extraction response format - expected n8n array or direct object"

/-- The processingData blob stored by saveNoteForProcessing for later use. -/
structure ProcessingData where
  audioUri : Option JsonVal
  duration : Option JsonVal
  transcriptionJobId : Option String

/-- A stored food-log entry (the FoodLogEntry shape constructed by
saveNoteForProcessing / saveFoodLogEntry in src/unnamed/part_004).
Optional fields that the source fills with null or leaves undefined are
Option-typed; processingError only appears once markNoteProcessingFailed has
run. -/
structure Entry where
  id : String
  timestamp : String
  reactionTime : String
  reactionDelay : Int
  date : String
  text : String
  source : String
  reactions : JsonVal
  foods : JsonVal
  confidence : Option Rat
  editedFromTranscription : Bool
  extractionData : Option JsonVal
  extractionTimestamp : Option String
  transcriptionJobId : Option String
  processingStatus : String
  processingStartedAt : Option String
  processingCompletedAt : Option String
  processingError : Option String
  processingData : Option ProcessingData

/-- Draft data passed to saveNoteForProcessing (fields the caller may omit). -/
structure Draft where
  id : Option String := none
  timestamp : Option String := none
  reactionTime : Option String := none
  reactionDelay : Option Int := none
  date : Option String := none
  text : Option String := none
  source : Option String := none
  confidence : Option Rat := none
  editedFromTranscription : Option Bool := none
  transcriptionJobId : Option String := none
  audioUri : Option JsonVal := none
  duration : Option JsonVal := none

/-- JS x || d for an optional string: undefined and the empty string are
falsy and fall through to the default. -/
def jsOrStr (x : Option String) (d : String) : String :=
  match x with
  | some s => if s == "" then d else s
  | none => d

/-- JS x || d for an optional number: undefined and 0 fall through. -/
def jsOrInt (x : Option Int) (d : Int) : Int :=
  match x with
  | some n => if n == 0 then d else n
  | none => d

/-- JS x || null for an optional number: a present 0 collapses to null. -/
def jsOrNullRat (x : Option Rat) : Option Rat :=
  match x with
  | some c => if c == 0 then none else some c
  | none => none

/-- JS x || null for an optional string: a present empty string collapses to
null. -/
def jsOrNullStr (x : Option String) : Option String :=
  match x with
  | some s => if s == "" then none else some s
  | none => none

/-- JS new Date().toISOString().split("T")[0] applied to the instant now. -/
def isoDatePart (now : String) : String :=
  (now.splitOn "T").headD ""

/-- validateFoodLogEntry (src/unnamed/part_004 lines 122-143): required
fields id, timestamp, text, source must be truthy (non-empty strings), source
must be voice or manual, and a defined confidence must lie in [0, 1]. -/
def validateFoodLogEntry (entry : Entry) : Bool :=
  if entry.id == "" then false
  else if entry.timestamp == "" then false
  else if entry.text == "" then false
  else if entry.source == "" then false
  else if !(entry.source == "voice" || entry.source == "manual") then false
  else
    match entry.confidence with
    | none => true
    | some c => !(c < 0 || c > 1)

/-- The NoteEntry literal built by saveNoteForProcessing
(src/unnamed/part_004 lines 481-505) from the draft, the current instant and
a freshly generated id. -/
def buildProcessingEntry (now freshId : String) (d : Draft) : Entry :=
  { id := jsOrStr d.id freshId
    timestamp := jsOrStr d.timestamp now
    reactionTime := jsOrStr d.reactionTime (jsOrStr d.timestamp now)
    reactionDelay := jsOrInt d.reactionDelay 0
    date := jsOrStr d.date (isoDatePart now)
    text := jsOrStr d.text ""
    source := jsOrStr d.source "manual"
    reactions := JsonVal.arr []
    foods := JsonVal.arr []
    confidence := jsOrNullRat d.confidence
    editedFromTranscription := d.editedFromTranscription.getD false
    extractionData := none
    extractionTimestamp := none
    transcriptionJobId := jsOrNullStr d.transcriptionJobId
    processingStatus := "processing"
    processingStartedAt := some now
    processingCompletedAt := none
    processingError := none
    processingData := some
      { audioUri := d.audioUri
        duration := d.duration
        transcriptionJobId := d.transcriptionJobId } }

/-- Descending-timestamp comparison used by the getFoodLogs sort comparator
(b, a ordering of new Date(b.timestamp) - new Date(a.timestamp)). -/
instance decTsDesc (dv : String → Int) :
    DecidableRel (fun a b : Entry => dv b.timestamp ≤ dv a.timestamp) :=
  fun a b => Int.decLe (dv b.timestamp) (dv a.timestamp)

/-- getFoodLogs (src/unnamed/part_004 lines 220-231): parse the stored
collection and sort it newest-first by timestamp.  JS sort is stable;
insertionSort with the non-strict descending relation models it.  dv
abstracts Date parsing of the ISO timestamp strings. -/
def getFoodLogs (dv : String → Int) (store : List Entry) : List Entry :=
  List.insertionSort (fun a b : Entry => dv b.timestamp ≤ dv a.timestamp) store

/-- saveNoteForProcessing (src/unnamed/part_004 lines 479-543): build the
entry with processingStatus "processing", validate it (an invalid entry
throws, is caught, and yields success false with a null id and no write),
then prepend it to the existing collection and persist.  Result components:
the stored collection, the success flag, the returned entryId. -/
def saveNoteForProcessing (dv : String → Int) (now freshId : String)
    (store : List Entry) (d : Draft) : List Entry × Bool × Option String :=
  let entry := buildProcessingEntry now freshId d
  if validateFoodLogEntry entry then
    let existingLogs := getFoodLogs dv store
    (entry :: existingLogs, true, some entry.id)
  else (store, false, none)

/-- findIndex by id followed by replacement of that element: none when no
element matches (the source returns false), otherwise the matched entry and
the collection with the first match replaced by f of it. -/
def replaceFirstById (f : Entry → Entry) (entryId : String) :
    List Entry → Option (Entry × List Entry)
  | [] => none
  | e :: es =>
    if e.id == entryId then some (e, f e :: es)
    else (replaceFirstById f entryId es).map (fun p => (p.1, e :: p.2))

/-- Lookup-and-replace shape shared by the repository writers (used directly
by markNoteProcessingFailed, whose entry update cannot throw): fetch the
collection (sorted read), locate the entry by id (false when absent), replace
it by f of it and persist the full collection. -/
def repoUpdate (dv : String → Int) (f : Entry → Entry) (entryId : String)
    (store : List Entry) : List Entry × Bool :=
  match replaceFirstById f entryId (getFoodLogs dv store) with
  | none => (store, false)
  | some (_, logs2) => (logs2, true)

/-- The field updates applied by updateNoteWithExtraction
(src/unnamed/part_004 lines 562-570): store the raw extraction payload, stamp
extractionTimestamp, take foods and reactions from the payload with || []
defaulting, and complete the processing lifecycle.  Only evaluated under the
non-null payload guard in updateNoteWithExtraction: on a null payload the
source throws at the foods access before any of these fields is built. -/
def applyExtraction (now : String) (extractionData : JsonVal) (e : Entry) : Entry :=
  { e with
    extractionData := some extractionData
    extractionTimestamp := some now
    foods :=
      match getField extractionData "foods" with
      | some v => if truthy v then v else JsonVal.arr []
      | none => JsonVal.arr []
    reactions :=
      match getField extractionData "reactions" with
      | some v => if truthy v then v else JsonVal.arr []
      | none => JsonVal.arr []
    processingStatus := "complete"
    processingCompletedAt := some now }

/-- updateNoteWithExtraction (src/unnamed/part_004 lines 551-588): locate by
id (false when absent); building the updated entry then reads
extractionData.foods and extractionData.reactions, which on a null payload
raises a TypeError that the catch handler converts to a false return with
nothing written; otherwise the updated collection is persisted and true
returned. -/
def updateNoteWithExtraction (dv : String → Int) (now : String)
    (store : List Entry) (entryId : String) (extractionData : JsonVal) :
    List Entry × Bool :=
  match replaceFirstById (applyExtraction now extractionData) entryId
      (getFoodLogs dv store) with
  | none => (store, false)
  | some (_, logs2) =>
    if jsAccessThrows extractionData then (store, false)
    else (logs2, true)

/-- The field updates applied by markNoteProcessingFailed
(src/unnamed/part_004 lines 607-612). -/
def markFailedEntry (now errorMessage : String) (e : Entry) : Entry :=
  { e with
    processingStatus := "failed"
    processingCompletedAt := some now
    processingError := some errorMessage }

/-- markNoteProcessingFailed (src/unnamed/part_004 lines 596-630). -/
def markNoteProcessingFailed (dv : String → Int) (now : String)
    (store : List Entry) (entryId : String) (errorMessage : String) :
    List Entry × Bool :=
  repoUpdate dv (markFailedEntry now errorMessage) entryId store

/-- A patch object handed to updateFoodLogEntry; present fields override the
stored entry via object spread.  id and timestamp may be present but are
always overridden back to the original values by the source. -/
structure Patch where
  id : Option String := none
  timestamp : Option String := none
  reactionTime : Option String := none
  reactionDelay : Option Int := none
  date : Option String := none
  text : Option String := none
  source : Option String := none
  reactions : Option JsonVal := none
  foods : Option JsonVal := none
  confidence : Option (Option Rat) := none
  editedFromTranscription : Option Bool := none
  extractionData : Option (Option JsonVal) := none
  extractionTimestamp : Option (Option String) := none
  transcriptionJobId : Option (Option String) := none
  processingStatus : Option String := none
  processingStartedAt : Option (Option String) := none
  processingCompletedAt : Option (Option String) := none
  processingError : Option (Option String) := none
  processingData : Option (Option ProcessingData) := none

/-- The merged entry built by updateFoodLogEntry (src/unnamed/part_004 lines
250-255): spread of the old entry then the patch, with id and timestamp
forced back to the original values. -/
def mergeEntry (p : Patch) (e : Entry) : Entry :=
  { id := e.id
    timestamp := e.timestamp
    reactionTime := p.reactionTime.getD e.reactionTime
    reactionDelay := p.reactionDelay.getD e.reactionDelay
    date := p.date.getD e.date
    text := p.text.getD e.text
    source := p.source.getD e.source
    reactions := p.reactions.getD e.reactions
    foods := p.foods.getD e.foods
    confidence := p.confidence.getD e.confidence
    editedFromTranscription := p.editedFromTranscription.getD e.editedFromTranscription
    extractionData := p.extractionData.getD e.extractionData
    extractionTimestamp := p.extractionTimestamp.getD e.extractionTimestamp
    transcriptionJobId := p.transcriptionJobId.getD e.transcriptionJobId
    processingStatus := p.processingStatus.getD e.processingStatus
    processingStartedAt := p.processingStartedAt.getD e.processingStartedAt
    processingCompletedAt := p.processingCompletedAt.getD e.processingCompletedAt
    processingError := p.processingError.getD e.processingError
    processingData := p.processingData.getD e.processingData }

/-- updateFoodLogEntry (src/unnamed/part_004 lines 239-281): locate by id
(false when absent), merge with the patch, validate the merged entry (an
invalid merge throws, is caught, yields false with no write), persist. -/
def updateFoodLogEntry (dv : String → Int) (store : List Entry)
    (entryId : String) (p : Patch) : List Entry × Bool :=
  match replaceFirstById (mergeEntry p) entryId (getFoodLogs dv store) with
  | none => (store, false)
  | some (e, logs2) =>
    if validateFoodLogEntry (mergeEntry p e) then (logs2, true)
    else (store, false)

/-- Outcome of the raced extraction fetch in processNote: rejected covers a
network rejection and the 60-second timeout rejection (with the message the
rejection carries); response is a settled HTTP response with its ok flag,
status, statusText and parsed JSON body. -/
inductive FetchOutcome where
  | rejected (msg : String) : FetchOutcome
  | response (ok : Bool) (status : Nat) (statusText : String) (body : JsonVal) : FetchOutcome

/-- The extraction step of processNote
(src/BackgroundProcessingService.js lines 97-145) as a single fallible
computation: a rejected race throws its message, a non-2xx response throws
the LLM extraction failed message, an invalid body shape throws the
normalization message, and otherwise the unwrapped extractedData is
produced. -/
def extractionResult (o : FetchOutcome) : Except String JsonVal :=
  match o with
  | FetchOutcome.rejected msg => Except.error msg
  | FetchOutcome.response ok status statusText body =>
    if !ok then
      Except.error ("LLM extraction failed: " ++ toString status ++ " " ++ statusText)
    else normalizeExtraction body

/-- Events recorded about calls made to the extraction endpoint: the instant
the fetch for an entry id is issued and the instant its race settles. -/
inductive TraceEv where
  | extractStart (entryId : String) : TraceEv
  | extractEnd (entryId : String) : TraceEv

/-- Body of processNote after the note has been fetched and found in
processing state (src/BackgroundProcessingService.js lines 96-165): run the
extraction step; on its failure the catch handler marks the note failed with
the thrown message and rethrows; on success call updateNoteWithExtraction and
treat a false result as a thrown failure handled the same way.  Result: the
persisted collection and the error rethrown to processQueue, if any. -/
def processNoteCore (dv : String → Int) (now : String) (ext : Entry → FetchOutcome)
    (store : List Entry) (entryId : String) (note : Entry) :
    List Entry × Option String :=
  match extractionResult (ext note) with
  | Except.error msg =>
    ((markNoteProcessingFailed dv now store entryId msg).1, some msg)
  | Except.ok extractedData =>
    let r := updateNoteWithExtraction dv now store entryId extractedData
    if r.2 then (r.1, none)
    else
      ((markNoteProcessingFailed dv now store entryId
          "Failed to update note with extraction results").1,
        some "Failed to update note with extraction results")

/-- processNote (src/BackgroundProcessingService.js lines 79-166): fetch the
collection and locate the note by id; an absent note throws Note not found
(caught by the same handler, which marks it failed - a no-op - and
rethrows); a note not in processing status is skipped; otherwise the
extraction step runs, surrounded by its trace events.  Result components:
the persisted collection, the error rethrown to processQueue, the trace of
extraction-endpoint calls. -/
def processNote (dv : String → Int) (now : String) (ext : Entry → FetchOutcome)
    (store : List Entry) (entryId : String) :
    List Entry × Option String × List TraceEv :=
  match (getFoodLogs dv store).find? (fun log => log.id == entryId) with
  | none =>
    ((markNoteProcessingFailed dv now store entryId "Note not found").1,
      some "Note not found", [])
  | some note =>
    if note.processingStatus != "processing" then (store, none, [])
    else
      let r := processNoteCore dv now ext store entryId note
      (r.1, r.2, [TraceEv.extractStart entryId, TraceEv.extractEnd entryId])

/-- One iteration of the processQueue while loop
(src/BackgroundProcessingService.js lines 59-68): run processNote on the id
removed from the queue; when it throws, the loop catch handler calls
markNoteProcessingFailed again with the thrown message. -/
def drainStep (dv : String → Int) (now : String) (ext : Entry → FetchOutcome)
    (store : List Entry) (entryId : String) : List Entry × List TraceEv :=
  let r := processNote dv now ext store entryId
  match r.2.1 with
  | some msg => ((markNoteProcessingFailed dv now r.1 entryId msg).1, r.2.2)
  | none => (r.1, r.2.2)

/-- The processQueue while loop over the pending ids in insertion order
(the JS Set iterates in insertion order and the loop removes the first
element each iteration).  Returns the final collection and the concatenated
extraction-call trace. -/
def drainLoop (dv : String → Int) (now : String) (ext : Entry → FetchOutcome) :
    List String → List Entry → List Entry × List TraceEv
  | [], store => (store, [])
  | entryId :: rest, store =>
    let step := drainStep dv now ext store entryId
    let next := drainLoop dv now ext rest step.1
    (next.1, step.2 ++ next.2)

/-- In-memory worker state: the pending-id Set (as its insertion-order list)
and the isProcessing flag. -/
structure WorkerState where
  processingQueue : List String
  isProcessing : Bool

/-- JS Set.add on the insertion-ordered pending queue: a no-op when the id is
already a member, otherwise appended at the back. -/
def setAdd (q : List String) (entryId : String) : List String :=
  if entryId ∈ q then q else q ++ [entryId]

/-- processQueue (src/BackgroundProcessingService.js lines 51-73): return
immediately when already processing or when the queue is empty; otherwise set
isProcessing, drain every pending id sequentially, and clear the flag.
Result components: the worker state, the persisted collection, the trace. -/
def processQueue (dv : String → Int) (now : String) (ext : Entry → FetchOutcome)
    (st : WorkerState) (store : List Entry) :
    WorkerState × List Entry × List TraceEv :=
  if st.isProcessing || st.processingQueue.isEmpty then (st, store, [])
  else
    let r := drainLoop dv now ext st.processingQueue store
    (⟨[], false⟩, r.1, r.2)

/-- addToProcessingQueue (src/BackgroundProcessingService.js lines 32-46):
add the id to the pending Set and start processQueue when not already
processing.  The un-awaited async processQueue call is modelled by running
the drain to completion, which is its behavior in the single-threaded model
when no other task interleaves. -/
def addToProcessingQueue (dv : String → Int) (now : String)
    (ext : Entry → FetchOutcome) (st : WorkerState) (store : List Entry)
    (entryId : String) : WorkerState × List Entry × List TraceEv :=
  let st1 : WorkerState := ⟨setAdd st.processingQueue entryId, st.isProcessing⟩
  if !st1.isProcessing then processQueue dv now ext st1 store
  else (st1, store, [])

/-- Is a trace event the start of an extraction call for the given id. -/
def isStartFor (entryId : String) : TraceEv → Bool
  | TraceEv.extractStart j => j == entryId
  | TraceEv.extractEnd _ => false

/-- Number of extraction calls issued for the given id in a trace. -/
def countStarts (entryId : String) (tr : List TraceEv) : Nat :=
  tr.countP (isStartFor entryId)

/-- A trace in which extraction calls never overlap: every started call ends
before the next one starts. -/
inductive SequentialTrace : List TraceEv → Prop where
  | nil : SequentialTrace []
  | pair (entryId : String) (rest : List TraceEv) :
      SequentialTrace rest →
      SequentialTrace (TraceEv.extractStart entryId :: TraceEv.extractEnd entryId :: rest)

/-- The success condition of the spec text for response normalization
(spec section 4.2), written from its words: shape (a), a single object with
status "success" and a present extractedData field, or shape (b), a
one-element sequence wrapping an object whose values field has status
"success" and a present extractedData field. -/
def specNormalizeSuccess : JsonVal → Bool
  | JsonVal.obj fields =>
    statusSuccessField (JsonVal.obj fields) &&
      (getField (JsonVal.obj fields) "extractedData").isSome
  | JsonVal.arr [w] =>
    match getField w "values" with
    | some v => statusSuccessField v && (getField v "extractedData").isSome
    | none => false
  | _ => false

/-- The amended success condition for response normalization, matching the
code: shape (a), a non-sequence value with status "success" and a truthy
extractedData field, or shape (b), a non-empty sequence whose first element
has a truthy values field with status "success" and a truthy extractedData
field. -/
def amendedNormalizeSuccess : JsonVal → Bool
  | JsonVal.arr (w :: _) =>
    match getField w "values" with
    | some v => truthy v && (statusSuccessField v && truthyField v "extractedData")
    | none => false
  | d => statusSuccessField d && truthyField d "extractedData"

/-! Lemmas about the sorted read and first-match replacement. -/

theorem gfl_perm (dv : String → Int) (store : List Entry) :
    List.Perm (getFoodLogs dv store) store :=
  List.perm_insertionSort _ store

theorem gfl_mem {dv : String → Int} {store : List Entry} {e : Entry} :
    e ∈ getFoodLogs dv store ↔ e ∈ store :=
  (gfl_perm dv store).mem_iff

theorem gfl_ids_perm (dv : String → Int) (store : List Entry) :
    List.Perm ((getFoodLogs dv store).map Entry.id) (store.map Entry.id) :=
  (gfl_perm dv store).map Entry.id

theorem gfl_ids_nodup {dv : String → Int} {store : List Entry}
    (h : (store.map Entry.id).Nodup) :
    ((getFoodLogs dv store).map Entry.id).Nodup :=
  ((gfl_ids_perm dv store).nodup_iff).mpr h

theorem mem_unique_of_ids_nodup {l : List Entry} {e y : Entry}
    (hnd : (l.map Entry.id).Nodup) (he : e ∈ l) (hy : y ∈ l)
    (hid : y.id = e.id) : y = e :=
  List.inj_on_of_nodup_map hnd hy he hid

theorem find_first_of_ids_nodup {l : List Entry} {e : Entry} {i : String}
    (hnd : (l.map Entry.id).Nodup) (he : e ∈ l) (hid : e.id = i) :
    l.find? (fun x => x.id == i) = some e := by
  induction l with
  | nil => cases he
  | cons x xs ih =>
    simp only [List.map_cons, List.nodup_cons] at hnd
    rcases List.mem_cons.mp he with h | hxs
    · subst h
      simp [List.find?_cons_of_pos, hid]
    · have hxid : x.id ≠ i := by
        intro hx
        exact hnd.1 (by rw [hx, ← hid]; exact List.mem_map_of_mem Entry.id hxs)
      rw [List.find?_cons_of_neg _ (by simp [hxid])]
      exact ih hnd.2 hxs

theorem replaceFirstById_eq_none {f : Entry → Entry} {i : String}
    {l : List Entry} (h : ∀ x ∈ l, x.id ≠ i) :
    replaceFirstById f i l = none := by
  induction l with
  | nil => rfl
  | cons x xs ih =>
    have hx : (x.id == i) = false := by
      simp [h x (List.mem_cons_self x xs)]
    simp [replaceFirstById, hx, ih (fun y hy => h y (List.mem_cons_of_mem x hy))]

theorem replaceFirstById_spec (f : Entry → Entry) {i : String} {l : List Entry}
    {e : Entry} (hnd : (l.map Entry.id).Nodup) (he : e ∈ l) (hid : e.id = i)
    (hf : (f e).id = e.id) :
    ∃ l₂, replaceFirstById f i l = some (e, l₂) ∧
      (∀ x ∈ l, x.id ≠ i → x ∈ l₂) ∧ f e ∈ l₂ ∧
      (∀ y ∈ l₂, y.id = i → y = f e) ∧
      l₂.map Entry.id = l.map Entry.id := by
  induction l with
  | nil => cases he
  | cons x xs ih =>
    simp only [List.map_cons, List.nodup_cons] at hnd
    rcases List.mem_cons.mp he with h | hxs
    · subst h
      refine ⟨f e :: xs, ?_, ?_, List.mem_cons_self _ _, ?_, ?_⟩
      · simp [replaceFirstById, hid]
      · intro y hy hyne
        rcases List.mem_cons.mp hy with h2 | h2
        · exact absurd (h2 ▸ hid) hyne
        · exact List.mem_cons_of_mem _ h2
      · intro y hy hyi
        rcases List.mem_cons.mp hy with h2 | h2
        · exact h2
        · exact absurd (show e.id ∈ List.map Entry.id xs by
            rw [hid, ← hyi]; exact List.mem_map_of_mem Entry.id h2) hnd.1
      · simp [hf, hid]
    · have hxid : x.id ≠ i := by
        intro hx
        exact hnd.1 (by rw [hx, ← hid]; exact List.mem_map_of_mem Entry.id hxs)
      have hxf : (x.id == i) = false := by simp [hxid]
      obtain ⟨l₂, h1, h2, h3, h4, h5⟩ := ih hnd.2 hxs
      refine ⟨x :: l₂, ?_, ?_, List.mem_cons_of_mem _ h3, ?_, ?_⟩
      · simp [replaceFirstById, hxf, h1]
      · intro y hy hyne
        rcases List.mem_cons.mp hy with h6 | h6
        · exact h6 ▸ List.mem_cons_self _ _
        · exact List.mem_cons_of_mem _ (h2 y h6 hyne)
      · intro y hy hyi
        rcases List.mem_cons.mp hy with h6 | h6
        · exact absurd (h6 ▸ hyi) hxid
        · exact h4 y h6 hyi
      · simp [h5]

theorem replaceFirstById_map_proj {α : Type} (proj : Entry → α)
    (f : Entry → Entry) (hpf : ∀ x, proj (f x) = proj x) {i : String} :
    ∀ {l l₂ : List Entry} {e : Entry},
      replaceFirstById f i l = some (e, l₂) → l₂.map proj = l.map proj := by
  intro l
  induction l with
  | nil => intro l₂ e h; cases h
  | cons x xs ih =>
    intro l₂ e h
    by_cases hx : x.id == i
    · simp only [replaceFirstById, if_pos hx] at h
      cases h
      simp [hpf]
    · simp only [replaceFirstById, if_neg hx] at h
      cases h2 : replaceFirstById f i xs with
      | none => rw [h2] at h; cases h
      | some p =>
        rw [h2] at h
        cases h
        simp [ih h2]

/-! Lemmas about the repository write operations. -/

theorem repoUpdate_not_found {dv : String → Int} {f : Entry → Entry}
    {i : String} {store : List Entry} (h : ∀ x ∈ store, x.id ≠ i) :
    repoUpdate dv f i store = (store, false) := by
  unfold repoUpdate
  rw [replaceFirstById_eq_none (fun x hx => h x (gfl_mem.mp hx))]

theorem repoUpdate_found (dv : String → Int) (f : Entry → Entry) {i : String}
    {store : List Entry} {e : Entry} (hnd : (store.map Entry.id).Nodup)
    (he : e ∈ store) (hid : e.id = i) (hf : (f e).id = e.id) :
    ∃ store₂, repoUpdate dv f i store = (store₂, true) ∧ f e ∈ store₂ ∧
      (∀ x ∈ store, x.id ≠ i → x ∈ store₂) ∧
      (∀ y ∈ store₂, y.id = i → y = f e) ∧
      List.Perm (store₂.map Entry.id) (store.map Entry.id) := by
  obtain ⟨l₂, h1, h2, h3, h4, h5⟩ :=
    replaceFirstById_spec f (gfl_ids_nodup hnd) (gfl_mem.mpr he) hid hf
  refine ⟨l₂, ?_, h3, ?_, h4, ?_⟩
  · unfold repoUpdate
    rw [h1]
  · intro x hx hxne
    exact h2 x (gfl_mem.mpr hx) hxne
  · rw [h5]
    exact gfl_ids_perm dv store

/-! Lemmas about null payloads and the extraction update. -/

theorem truthy_not_throws {x : JsonVal} (h : truthy x = true) :
    jsAccessThrows x = false := by
  cases x <;> simp_all [truthy, jsAccessThrows]

theorem getField_some_not_throws {w : JsonVal} {k : String} {v : JsonVal}
    (h : getField w k = some v) : jsAccessThrows w = false := by
  cases w <;> simp_all [getField, jsAccessThrows]

theorem normalizeExtraction_ok_truthy {d x : JsonVal}
    (h : normalizeExtraction d = Except.ok x) : truthy x = true := by
  unfold normalizeExtraction at h
  repeat' split at h
  all_goals simp_all

theorem extractionResult_ok_truthy {o : FetchOutcome} {x : JsonVal}
    (h : extractionResult o = Except.ok x) : truthy x = true := by
  cases o with
  | rejected msg => cases h
  | response ok status statusText body =>
    simp only [extractionResult] at h
    by_cases hok : (!ok) = true
    · rw [if_pos hok] at h
      cases h
    · rw [if_neg hok] at h
      exact normalizeExtraction_ok_truthy h

theorem updateNote_not_found {dv : String → Int} {now : String}
    {store : List Entry} {i : String} {x : JsonVal}
    (h : ∀ e ∈ store, e.id ≠ i) :
    updateNoteWithExtraction dv now store i x = (store, false) := by
  unfold updateNoteWithExtraction
  rw [replaceFirstById_eq_none (fun e he => h e (gfl_mem.mp he))]

theorem updateNote_throws {dv : String → Int} {now : String}
    {store : List Entry} {i : String} {x : JsonVal}
    (hx : jsAccessThrows x = true) :
    updateNoteWithExtraction dv now store i x = (store, false) := by
  unfold updateNoteWithExtraction
  rcases hrep : replaceFirstById (applyExtraction now x) i (getFoodLogs dv store)
    with _ | ⟨e, logs2⟩
  · rfl
  · simp [hx]

theorem updateNote_found (dv : String → Int) (now : String) {i : String}
    {store : List Entry} {e : Entry} {x : JsonVal}
    (hnd : (store.map Entry.id).Nodup) (he : e ∈ store) (hid : e.id = i)
    (hx : jsAccessThrows x = false) :
    ∃ S, updateNoteWithExtraction dv now store i x = (S, true) ∧
      applyExtraction now x e ∈ S ∧
      (∀ z ∈ store, z.id ≠ i → z ∈ S) ∧
      (∀ y ∈ S, y.id = i → y = applyExtraction now x e) ∧
      List.Perm (S.map Entry.id) (store.map Entry.id) := by
  obtain ⟨l₂, h1, h2, h3, h4, h5⟩ :=
    replaceFirstById_spec (applyExtraction now x)
      (show ((getFoodLogs dv store).map Entry.id).Nodup from gfl_ids_nodup hnd)
      (show e ∈ getFoodLogs dv store from gfl_mem.mpr he) hid rfl
  refine ⟨l₂, ?_, h3, ?_, h4, ?_⟩
  · simp [updateNoteWithExtraction, h1, hx]
  · intro z hz hzne
    exact h2 z (gfl_mem.mpr hz) hzne
  · rw [h5]
    exact gfl_ids_perm dv store

/-! Lemmas about a single drain-loop iteration. -/

theorem pn_not_found (dv : String → Int) (now : String)
    (ext : Entry → FetchOutcome) {store : List Entry} {i : String}
    (h : ∀ x ∈ store, x.id ≠ i) :
    processNote dv now ext store i = (store, some "Note not found", []) := by
  have hfind : (getFoodLogs dv store).find? (fun x => x.id == i) = none :=
    List.find?_eq_none.mpr (fun x hx => by simp [h x (gfl_mem.mp hx)])
  simp [processNote, hfind, markNoteProcessingFailed, repoUpdate_not_found h]

theorem pn_skip (dv : String → Int) (now : String) (ext : Entry → FetchOutcome)
    {store : List Entry} {i : String} {e : Entry}
    (hnd : (store.map Entry.id).Nodup) (he : e ∈ store) (hid : e.id = i)
    (hst : e.processingStatus ≠ "processing") :
    processNote dv now ext store i = (store, none, []) := by
  have hfind : (getFoodLogs dv store).find? (fun x => x.id == i) = some e :=
    find_first_of_ids_nodup (gfl_ids_nodup hnd) (gfl_mem.mpr he) hid
  simp [processNote, hfind, hst]

theorem pn_processing (dv : String → Int) (now : String)
    (ext : Entry → FetchOutcome) {store : List Entry} {i : String} {e : Entry}
    (hnd : (store.map Entry.id).Nodup) (he : e ∈ store) (hid : e.id = i)
    (hproc : e.processingStatus = "processing") :
    processNote dv now ext store i =
      ((processNoteCore dv now ext store i e).1,
        (processNoteCore dv now ext store i e).2,
        [TraceEv.extractStart i, TraceEv.extractEnd i]) := by
  have hfind : (getFoodLogs dv store).find? (fun x => x.id == i) = some e :=
    find_first_of_ids_nodup (gfl_ids_nodup hnd) (gfl_mem.mpr he) hid
  simp [processNote, hfind, hproc]

theorem core_fail (dv : String → Int) (now : String) (ext : Entry → FetchOutcome)
    {store : List Entry} {i : String} {e : Entry} {msg : String}
    (hnd : (store.map Entry.id).Nodup) (he : e ∈ store) (hid : e.id = i)
    (hext : extractionResult (ext e) = Except.error msg) :
    ∃ S₁, processNoteCore dv now ext store i e = (S₁, some msg) ∧
      markFailedEntry now msg e ∈ S₁ ∧
      (∀ x ∈ store, x.id ≠ i → x ∈ S₁) ∧
      (∀ y ∈ S₁, y.id = i → y = markFailedEntry now msg e) ∧
      List.Perm (S₁.map Entry.id) (store.map Entry.id) := by
  obtain ⟨S₁, hr, hmem, hframe, huniq, hperm⟩ :=
    repoUpdate_found dv (markFailedEntry now msg) hnd he hid rfl
  refine ⟨S₁, ?_, hmem, hframe, huniq, hperm⟩
  simp [processNoteCore, hext, markNoteProcessingFailed, hr]

theorem core_success (dv : String → Int) (now : String)
    (ext : Entry → FetchOutcome) {store : List Entry} {i : String} {e : Entry}
    {x : JsonVal} (hnd : (store.map Entry.id).Nodup) (he : e ∈ store)
    (hid : e.id = i) (hext : extractionResult (ext e) = Except.ok x) :
    ∃ S₁, processNoteCore dv now ext store i e = (S₁, none) ∧
      applyExtraction now x e ∈ S₁ ∧
      (∀ z ∈ store, z.id ≠ i → z ∈ S₁) ∧
      (∀ y ∈ S₁, y.id = i → y = applyExtraction now x e) ∧
      List.Perm (S₁.map Entry.id) (store.map Entry.id) := by
  have hx : jsAccessThrows x = false :=
    truthy_not_throws (extractionResult_ok_truthy hext)
  obtain ⟨S₁, hr, hmem, hframe, huniq, hperm⟩ := updateNote_found dv now hnd he hid hx
  refine ⟨S₁, ?_, hmem, hframe, huniq, hperm⟩
  simp [processNoteCore, hext, hr]

theorem ds_trace_eq (dv : String → Int) (now : String)
    (ext : Entry → FetchOutcome) (store : List Entry) (j : String) :
    (drainStep dv now ext store j).2 = (processNote dv now ext store j).2.2 := by
  unfold drainStep
  cases h : (processNote dv now ext store j).2.1 <;> simp [h]

theorem ds_not_found (dv : String → Int) (now : String)
    (ext : Entry → FetchOutcome) {store : List Entry} {i : String}
    (h : ∀ x ∈ store, x.id ≠ i) :
    drainStep dv now ext store i = (store, []) := by
  simp [drainStep, pn_not_found dv now ext h,
    markNoteProcessingFailed, repoUpdate_not_found h]

theorem ds_skip (dv : String → Int) (now : String) (ext : Entry → FetchOutcome)
    {store : List Entry} {i : String} {e : Entry}
    (hnd : (store.map Entry.id).Nodup) (he : e ∈ store) (hid : e.id = i)
    (hst : e.processingStatus ≠ "processing") :
    drainStep dv now ext store i = (store, []) := by
  simp [drainStep, pn_skip dv now ext hnd he hid hst]

theorem ds_fail (dv : String → Int) (now : String) (ext : Entry → FetchOutcome)
    {store : List Entry} {i : String} {e : Entry} {msg : String}
    (hnd : (store.map Entry.id).Nodup) (he : e ∈ store) (hid : e.id = i)
    (hproc : e.processingStatus = "processing")
    (hext : extractionResult (ext e) = Except.error msg) :
    ∃ S₂, drainStep dv now ext store i =
        (S₂, [TraceEv.extractStart i, TraceEv.extractEnd i]) ∧
      (∀ x ∈ store, x.id ≠ i → x ∈ S₂) ∧
      List.Perm (S₂.map Entry.id) (store.map Entry.id) ∧
      (∀ y ∈ S₂, y.id = i →
        y.processingStatus = "failed" ∧ y.processingError = some msg) ∧
      (∃ y, y ∈ S₂ ∧ y.id = i ∧ y.processingStatus = "failed" ∧
        y.processingError = some msg) := by
  obtain ⟨S₁, hcore, hmem₁, hframe₁, huniq₁, hperm₁⟩ :=
    core_fail dv now ext hnd he hid hext
  have hnd₁ : (S₁.map Entry.id).Nodup := hperm₁.nodup_iff.mpr hnd
  have hid₁ : (markFailedEntry now msg e).id = i := hid
  obtain ⟨S₂, hr₂, hmem₂, hframe₂, huniq₂, hperm₂⟩ :=
    repoUpdate_found dv (markFailedEntry now msg) hnd₁ hmem₁ hid₁ rfl
  have hpn := pn_processing dv now ext hnd he hid hproc
  refine ⟨S₂, ?_, ?_, hperm₂.trans hperm₁, ?_, ?_⟩
  · simp [drainStep, hpn, hcore, markNoteProcessingFailed, hr₂]
  · intro z hz hzne
    exact hframe₂ z (hframe₁ z hz hzne) hzne
  · intro y hy hyi
    rw [huniq₂ y hy hyi]
    exact ⟨rfl, rfl⟩
  · exact ⟨markFailedEntry now msg (markFailedEntry now msg e), hmem₂, hid, rfl, rfl⟩

theorem ds_success (dv : String → Int) (now : String)
    (ext : Entry → FetchOutcome) {store : List Entry} {i : String} {e : Entry}
    {x : JsonVal} (hnd : (store.map Entry.id).Nodup) (he : e ∈ store)
    (hid : e.id = i) (hproc : e.processingStatus = "processing")
    (hext : extractionResult (ext e) = Except.ok x) :
    ∃ S₁, drainStep dv now ext store i =
        (S₁, [TraceEv.extractStart i, TraceEv.extractEnd i]) ∧
      (∀ z ∈ store, z.id ≠ i → z ∈ S₁) ∧
      List.Perm (S₁.map Entry.id) (store.map Entry.id) ∧
      (∀ y ∈ S₁, y.id = i → y = applyExtraction now x e) ∧
      applyExtraction now x e ∈ S₁ := by
  obtain ⟨S₁, hcore, hmem₁, hframe₁, huniq₁, hperm₁⟩ :=
    core_success dv now ext hnd he hid hext
  have hpn := pn_processing dv now ext hnd he hid hproc
  refine ⟨S₁, ?_, hframe₁, hperm₁, huniq₁, hmem₁⟩
  simp [drainStep, hpn, hcore]

theorem ds_frame_perm (dv : String → Int) (now : String)
    (ext : Entry → FetchOutcome) {store : List Entry}
    (hnd : (store.map Entry.id).Nodup) (j : String) :
    (∀ x ∈ store, x.id ≠ j → x ∈ (drainStep dv now ext store j).1) ∧
    List.Perm ((drainStep dv now ext store j).1.map Entry.id)
      (store.map Entry.id) := by
  cases hfind : (getFoodLogs dv store).find? (fun x => x.id == j) with
  | none =>
    have h : ∀ x ∈ store, x.id ≠ j := by
      intro x hx
      have := List.find?_eq_none.mp hfind x (gfl_mem.mpr hx)
      simpa using this
    rw [ds_not_found dv now ext h]
    exact ⟨fun x hx _ => hx, List.Perm.refl _⟩
  | some note =>
    have hmem : note ∈ store := gfl_mem.mp (List.mem_of_find?_eq_some hfind)
    have hid : note.id = j := by
      have := List.find?_some hfind
      simpa using this
    by_cases hst : note.processingStatus = "processing"
    · cases hext : extractionResult (ext note) with
      | error msg =>
        obtain ⟨S₂, heq, hframe, hperm, _, _⟩ := ds_fail dv now ext hnd hmem hid hst hext
        rw [heq]
        exact ⟨hframe, hperm⟩
      | ok x =>
        obtain ⟨S₁, heq, hframe, hperm, _, _⟩ := ds_success dv now ext hnd hmem hid hst hext
        rw [heq]
        exact ⟨hframe, hperm⟩
    · rw [ds_skip dv now ext hnd hmem hid hst]
      exact ⟨fun x hx _ => hx, List.Perm.refl _⟩

theorem ds_trace_shape (dv : String → Int) (now : String)
    (ext : Entry → FetchOutcome) (store : List Entry) (j : String) :
    (drainStep dv now ext store j).2 = [] ∨
    (drainStep dv now ext store j).2 =
      [TraceEv.extractStart j, TraceEv.extractEnd j] := by
  rw [ds_trace_eq]
  cases hfind : (getFoodLogs dv store).find? (fun x => x.id == j) with
  | none => left; simp [processNote, hfind]
  | some note =>
    by_cases hst : note.processingStatus = "processing"
    · right; simp [processNote, hfind, hst]
    · left; simp [processNote, hfind, hst]

/-! Lemmas about the whole drain loop. -/

theorem countStarts_append (i : String) (t₁ t₂ : List TraceEv) :
    countStarts i (t₁ ++ t₂) = countStarts i t₁ + countStarts i t₂ :=
  List.countP_append _ _ _

theorem countStarts_step_other {dv : String → Int} {now : String}
    {ext : Entry → FetchOutcome} {store : List Entry} {j i : String}
    (h : j ≠ i) : countStarts i (drainStep dv now ext store j).2 = 0 := by
  rcases ds_trace_shape dv now ext store j with hsh | hsh <;> rw [hsh]
  · rfl
  · simp [countStarts, List.countP_cons, isStartFor, h]

theorem ds_processing_trace (dv : String → Int) (now : String)
    (ext : Entry → FetchOutcome) {store : List Entry} {i : String} {e : Entry}
    (hnd : (store.map Entry.id).Nodup) (he : e ∈ store) (hid : e.id = i)
    (hproc : e.processingStatus = "processing") :
    (drainStep dv now ext store i).2 =
      [TraceEv.extractStart i, TraceEv.extractEnd i] := by
  rw [ds_trace_eq, pn_processing dv now ext hnd he hid hproc]

theorem dl_frame_perm (dv : String → Int) (now : String)
    (ext : Entry → FetchOutcome) :
    ∀ (q : List String) (store : List Entry), (store.map Entry.id).Nodup →
    (∀ x ∈ store, (∀ j ∈ q, x.id ≠ j) → x ∈ (drainLoop dv now ext q store).1) ∧
    List.Perm ((drainLoop dv now ext q store).1.map Entry.id)
      (store.map Entry.id) := by
  intro q
  induction q with
  | nil =>
    intro store _
    exact ⟨fun x hx _ => hx, List.Perm.refl _⟩
  | cons j rest ih =>
    intro store hnd
    obtain ⟨hf₁, hp₁⟩ := ds_frame_perm dv now ext hnd j
    obtain ⟨hf₂, hp₂⟩ := ih (drainStep dv now ext store j).1 (hp₁.nodup_iff.mpr hnd)
    refine ⟨?_, hp₂.trans hp₁⟩
    intro x hx hxq
    exact hf₂ x (hf₁ x hx (hxq j (List.mem_cons_self _ _)))
      (fun k hk => hxq k (List.mem_cons_of_mem _ hk))

theorem seq_append_step (t₁ t₂ : List TraceEv) (j : String)
    (h₁ : t₁ = [] ∨ t₁ = [TraceEv.extractStart j, TraceEv.extractEnd j])
    (h₂ : SequentialTrace t₂) : SequentialTrace (t₁ ++ t₂) := by
  rcases h₁ with rfl | rfl
  · exact h₂
  · exact SequentialTrace.pair j t₂ h₂

theorem seq_drainLoop (dv : String → Int) (now : String)
    (ext : Entry → FetchOutcome) :
    ∀ (q : List String) (store : List Entry),
    SequentialTrace (drainLoop dv now ext q store).2 := by
  intro q
  induction q with
  | nil => intro store; exact SequentialTrace.nil
  | cons j rest ih =>
    intro store
    exact seq_append_step _ _ j (ds_trace_shape dv now ext store j) (ih _)

theorem dl_count_zero (dv : String → Int) (now : String)
    (ext : Entry → FetchOutcome) :
    ∀ (q : List String) (store : List Entry) {i : String},
    i ∉ q → countStarts i (drainLoop dv now ext q store).2 = 0 := by
  intro q
  induction q with
  | nil => intro store i _; rfl
  | cons j rest ih =>
    intro store i hi
    have hj : j ≠ i := by rintro rfl; exact hi (List.mem_cons_self _ _)
    have hrest : i ∉ rest := fun h => hi (List.mem_cons_of_mem _ h)
    show countStarts i ((drainStep dv now ext store j).2 ++
      (drainLoop dv now ext rest (drainStep dv now ext store j).1).2) = 0
    rw [countStarts_append, countStarts_step_other hj, ih _ hrest]

theorem dl_count_one (dv : String → Int) (now : String)
    (ext : Entry → FetchOutcome) :
    ∀ (q : List String) (store : List Entry) {i : String} {e : Entry},
    q.Nodup → (store.map Entry.id).Nodup → i ∈ q → e ∈ store → e.id = i →
    e.processingStatus = "processing" →
    countStarts i (drainLoop dv now ext q store).2 = 1 := by
  intro q
  induction q with
  | nil => intro store i e _ _ hi; cases hi
  | cons j rest ih =>
    intro store i e hq hnd hi he hid hproc
    have hq2 : rest.Nodup := (List.nodup_cons.mp hq).2
    show countStarts i ((drainStep dv now ext store j).2 ++
      (drainLoop dv now ext rest (drainStep dv now ext store j).1).2) = 1
    rw [countStarts_append]
    by_cases hji : j = i
    · subst hji
      have hnotin : j ∉ rest := (List.nodup_cons.mp hq).1
      rw [ds_processing_trace dv now ext hnd he hid hproc,
        dl_count_zero dv now ext rest _ hnotin]
      simp [countStarts, List.countP_cons, isStartFor]
    · have hirest : i ∈ rest := by
        rcases List.mem_cons.mp hi with h | h
        · exact absurd h.symm hji
        · exact h
      obtain ⟨hf₁, hp₁⟩ := ds_frame_perm dv now ext hnd j
      have he₁ : e ∈ (drainStep dv now ext store j).1 :=
        hf₁ e he (fun h => hji ((hid ▸ h).symm))
      rw [countStarts_step_other hji,
        ih _ hq2 (hp₁.nodup_iff.mpr hnd) hirest he₁ hid hproc]

theorem dl_fail_final (dv : String → Int) (now : String)
    (ext : Entry → FetchOutcome) :
    ∀ (q : List String) (store : List Entry) {i msg : String} {e : Entry},
    q.Nodup → (store.map Entry.id).Nodup → i ∈ q → e ∈ store → e.id = i →
    e.processingStatus = "processing" →
    extractionResult (ext e) = Except.error msg →
    ∃ y, y ∈ (drainLoop dv now ext q store).1 ∧ y.id = i ∧
      y.processingStatus = "failed" ∧ y.processingError = some msg := by
  intro q
  induction q with
  | nil => intro store i msg e _ _ hi; cases hi
  | cons j rest ih =>
    intro store i msg e hq hnd hi he hid hproc hext
    have hq2 : rest.Nodup := (List.nodup_cons.mp hq).2
    by_cases hji : j = i
    · subst hji
      have hnotin : j ∉ rest := (List.nodup_cons.mp hq).1
      obtain ⟨S₂, heq, _, hperm, _, y, hy, hyi, hyst, hyerr⟩ :=
        ds_fail dv now ext hnd he hid hproc hext
      obtain ⟨hf₂, _⟩ := dl_frame_perm dv now ext rest (drainStep dv now ext store j).1
        ((heq ▸ hperm : List.Perm (((drainStep dv now ext store j).1).map Entry.id)
            (store.map Entry.id)).nodup_iff.mpr hnd)
      refine ⟨y, ?_, hyi, hyst, hyerr⟩
      exact hf₂ y (heq ▸ hy) (fun k hk => by rw [hyi]; rintro rfl; exact hnotin hk)
    · have hirest : i ∈ rest := by
        rcases List.mem_cons.mp hi with h | h
        · exact absurd h.symm hji
        · exact h
      obtain ⟨hf₁, hp₁⟩ := ds_frame_perm dv now ext hnd j
      have he₁ : e ∈ (drainStep dv now ext store j).1 :=
        hf₁ e he (fun h => hji ((hid ▸ h).symm))
      exact ih _ hq2 (hp₁.nodup_iff.mpr hnd) hirest he₁ hid hproc hext

theorem dl_success_final (dv : String → Int) (now : String)
    (ext : Entry → FetchOutcome) :
    ∀ (q : List String) (store : List Entry) {i : String} {e : Entry} {x : JsonVal},
    q.Nodup → (store.map Entry.id).Nodup → i ∈ q → e ∈ store → e.id = i →
    e.processingStatus = "processing" →
    extractionResult (ext e) = Except.ok x →
    ∃ y, y ∈ (drainLoop dv now ext q store).1 ∧ y.id = i ∧
      y.processingStatus = "complete" ∧ y.extractionTimestamp = some now := by
  intro q
  induction q with
  | nil => intro store i e x _ _ hi; cases hi
  | cons j rest ih =>
    intro store i e x hq hnd hi he hid hproc hext
    have hq2 : rest.Nodup := (List.nodup_cons.mp hq).2
    by_cases hji : j = i
    · subst hji
      have hnotin : j ∉ rest := (List.nodup_cons.mp hq).1
      obtain ⟨S₁, heq, _, hperm, _, hy⟩ :=
        ds_success dv now ext hnd he hid hproc hext
      obtain ⟨hf₂, _⟩ := dl_frame_perm dv now ext rest (drainStep dv now ext store j).1
        ((heq ▸ hperm : List.Perm (((drainStep dv now ext store j).1).map Entry.id)
            (store.map Entry.id)).nodup_iff.mpr hnd)
      refine ⟨applyExtraction now x e, ?_, hid, rfl, rfl⟩
      exact hf₂ _ (heq ▸ hy) (fun k hk => by
        show (applyExtraction now x e).id ≠ k
        rw [show (applyExtraction now x e).id = e.id from rfl, hid]
        rintro rfl; exact hnotin hk)
    · have hirest : i ∈ rest := by
        rcases List.mem_cons.mp hi with h | h
        · exact absurd h.symm hji
        · exact h
      obtain ⟨hf₁, hp₁⟩ := ds_frame_perm dv now ext hnd j
      have he₁ : e ∈ (drainStep dv now ext store j).1 :=
        hf₁ e he (fun h => hji ((hid ▸ h).symm))
      exact ih _ hq2 (hp₁.nodup_iff.mpr hnd) hirest he₁ hid hproc hext

theorem dl_terminal_skip (dv : String → Int) (now : String)
    (ext : Entry → FetchOutcome) :
    ∀ (q : List String) (store : List Entry) {e : Entry},
    (store.map Entry.id).Nodup → e ∈ store →
    e.processingStatus ≠ "processing" →
    e ∈ (drainLoop dv now ext q store).1 ∧
    countStarts e.id (drainLoop dv now ext q store).2 = 0 := by
  intro q
  induction q with
  | nil => intro store e _ he _; exact ⟨he, rfl⟩
  | cons j rest ih =>
    intro store e hnd he hst
    have hsplit :
        e ∈ (drainLoop dv now ext rest (drainStep dv now ext store j).1).1 ∧
        countStarts e.id
          (drainLoop dv now ext rest (drainStep dv now ext store j).1).2 = 0 →
        countStarts e.id (drainStep dv now ext store j).2 = 0 →
        e ∈ (drainLoop dv now ext (j :: rest) store).1 ∧
        countStarts e.id (drainLoop dv now ext (j :: rest) store).2 = 0 := by
      intro hrest hstep
      refine ⟨hrest.1, ?_⟩
      show countStarts e.id ((drainStep dv now ext store j).2 ++
        (drainLoop dv now ext rest (drainStep dv now ext store j).1).2) = 0
      rw [countStarts_append, hstep, hrest.2]
    by_cases hj : j = e.id
    · subst hj
      have heq := ds_skip dv now ext hnd he rfl hst
      refine hsplit (ih _ ?_ ?_ hst) ?_
      · rw [heq]; exact hnd
      · rw [heq]; exact he
      · rw [heq]; rfl
    · obtain ⟨hf₁, hp₁⟩ := ds_frame_perm dv now ext hnd j
      exact hsplit
        (ih _ (hp₁.nodup_iff.mpr hnd) (hf₁ e he (fun h => hj h.symm)) hst)
        (countStarts_step_other hj)

/-! Lemmas about the pending-id set. -/

theorem mem_setAdd_self (q : List String) (i : String) : i ∈ setAdd q i := by
  unfold setAdd
  by_cases h : i ∈ q <;> simp [h]

theorem setAdd_nodup {q : List String} (hq : q.Nodup) (i : String) :
    (setAdd q i).Nodup := by
  unfold setAdd
  by_cases h : i ∈ q <;> simp [h, List.nodup_append, hq]

theorem setAdd_of_mem {q : List String} {i : String} (h : i ∈ q) :
    setAdd q i = q := by
  simp [setAdd, h]

theorem foldl_setAdd_replicate {i : String} :
    ∀ (n : Nat) (q : List String), i ∈ q →
      List.foldl setAdd q (List.replicate n i) = q := by
  intro n
  induction n with
  | zero => intro q _; rfl
  | succ m ih =>
    intro q hq
    rw [List.replicate_succ, List.foldl_cons, setAdd_of_mem hq]
    exact ih q hq

/-! Concrete sample data used by the witness theorems. -/

/-- Constant date valuation (timestamps compare equal; the sort is then the
identity on any store). -/
def dvZero : String → Int := fun _ => 0

/-- A stored note in processing state, as saveNoteForProcessing creates it. -/
def sampleEntry : Entry :=
  { id := "e1"
    timestamp := "2024-01-01T10:00:00.000Z"
    reactionTime := "2024-01-01T10:00:00.000Z"
    reactionDelay := 0
    date := "2024-01-01"
    text := "toast with egg"
    source := "voice"
    reactions := JsonVal.arr []
    foods := JsonVal.arr []
    confidence := none
    editedFromTranscription := false
    extractionData := none
    extractionTimestamp := none
    transcriptionJobId := none
    processingStatus := "processing"
    processingStartedAt := some "2024-01-01T10:00:00.000Z"
    processingCompletedAt := none
    processingError := none
    processingData := none }

/-- A second stored note in processing state with a distinct id. -/
def sampleEntry2 : Entry :=
  { sampleEntry with id := "e2", text := "strawberries" }

/-- A stored note already in the failed terminal state. -/
def failedEntry : Entry :=
  { sampleEntry with
    id := "f1"
    processingStatus := "failed"
    processingError := some "earlier failure" }

/-- A stored note already in the complete terminal state. -/
def completeEntry : Entry :=
  { sampleEntry with id := "c1", processingStatus := "complete" }

/-- An extraction oracle whose fetch promise rejects. -/
def extReject : Entry → FetchOutcome := fun _ => FetchOutcome.rejected "boom"

/-- A successful direct-format extraction response body. -/
def directOkBody : JsonVal :=
  JsonVal.obj [("status", JsonVal.str "success"),
    ("extractedData", JsonVal.obj [("foods", JsonVal.arr [JsonVal.str "egg"])])]

/-- An extraction oracle answering 200 with a valid direct-format body. -/
def extOk : Entry → FetchOutcome :=
  fun _ => FetchOutcome.response true 200 "OK" directOkBody

/-- An oracle that rejects for entry e1 and succeeds for every other entry. -/
def extMixed : Entry → FetchOutcome :=
  fun e => if e.id == "e1" then FetchOutcome.rejected "boom"
    else FetchOutcome.response true 200 "OK" directOkBody

/-- An extraction payload carrying one food and no reactions field. -/
def payloadFoods : JsonVal :=
  JsonVal.obj [("foods", JsonVal.arr [JsonVal.str "egg"])]

/-- A valid element of an n8n-format response array. -/
def n8nOkElem : JsonVal :=
  JsonVal.obj [("values", JsonVal.obj [("status", JsonVal.str "success"),
    ("extractedData", JsonVal.obj [("foods", JsonVal.arr [])])])]

/-- A two-element n8n-format response array: not a one-element sequence, yet
accepted by the code. -/
def twoElemResponse : JsonVal := JsonVal.arr [n8nOkElem, n8nOkElem]

/-- A one-element n8n-format response array. -/
def oneElemResponse : JsonVal := JsonVal.arr [n8nOkElem]

/-- A direct-format response whose extractedData field is present but null:
accepted by the spec wording, rejected by the code. -/
def nullExtractedResponse : JsonVal :=
  JsonVal.obj [("status", JsonVal.str "success"), ("extractedData", JsonVal.null)]

/-! Claim theorems. -/

/-- Claim C5: enqueue is idempotent on pending membership: enqueuing the same
id any number of times before it is drained leaves the pending set as a
single enqueue would, and the drain then issues exactly one extraction call
for that id (the id names a stored note in processing state). -/
theorem claim5_idempotent_enqueue (dv : String → Int) (now : String)
    (ext : Entry → FetchOutcome) (q : List String) (store : List Entry)
    (i : String) (e : Entry) (n : Nat)
    (hq : q.Nodup) (hnd : (store.map Entry.id).Nodup)
    (he : e ∈ store) (hid : e.id = i)
    (hproc : e.processingStatus = "processing") :
    (List.replicate (n + 1) i).foldl setAdd q = setAdd q i ∧
    countStarts i (drainLoop dv now ext (setAdd q i) store).2 = 1 := by
  constructor
  · rw [List.replicate_succ, List.foldl_cons]
    exact foldl_setAdd_replicate n (setAdd q i) (mem_setAdd_self q i)
  · exact dl_count_one dv now ext (setAdd q i) store (setAdd_nodup hq i) hnd
      (mem_setAdd_self q i) he hid hproc

/-- Witness for C5 at a concrete queue, store and oracle. -/
theorem claim5_witness :
    (List.replicate 3 "e1").foldl setAdd [] = setAdd [] "e1" ∧
    countStarts "e1" (drainLoop dvZero "2024-01-02T00:00:00.000Z" extReject
      (setAdd [] "e1") [sampleEntry]).2 = 1 :=
  claim5_idempotent_enqueue dvZero "2024-01-02T00:00:00.000Z" extReject []
    [sampleEntry] "e1" sampleEntry 2 (by decide) (by decide)
    (List.mem_cons_self _ _) rfl rfl

/-- Claim C6: at most one drain loop instance runs: invoking processQueue
while the worker is already draining is a no-op (state, store and trace all
unchanged, no extraction call), and the trace of any processQueue run is
strictly sequential: each extraction call settles before the next one
starts. -/
theorem claim6_single_drain (dv : String → Int) (now : String)
    (ext : Entry → FetchOutcome) :
    (∀ (q : List String) (store : List Entry),
      processQueue dv now ext ⟨q, true⟩ store = (⟨q, true⟩, store, [])) ∧
    (∀ (st : WorkerState) (store : List Entry),
      SequentialTrace (processQueue dv now ext st store).2.2) := by
  constructor
  · intro q store
    simp [processQueue]
  · intro st store
    unfold processQueue
    by_cases h : st.isProcessing || st.processingQueue.isEmpty
    · simp only [h, if_true]
      exact SequentialTrace.nil
    · simp only [h, if_false]
      exact seq_drainLoop dv now ext _ store

/-- Witness for C6: a concrete already-draining state is left untouched, and
a concrete idle drain produces a sequential trace. -/
theorem claim6_witness :
    processQueue dvZero "2024-01-02T00:00:00.000Z" extReject ⟨["e1"], true⟩
      [sampleEntry] = (⟨["e1"], true⟩, [sampleEntry], []) ∧
    SequentialTrace (processQueue dvZero "2024-01-02T00:00:00.000Z" extReject
      ⟨["e1"], false⟩ [sampleEntry]).2.2 :=
  ⟨(claim6_single_drain dvZero "2024-01-02T00:00:00.000Z" extReject).1 ["e1"]
      [sampleEntry],
    (claim6_single_drain dvZero "2024-01-02T00:00:00.000Z" extReject).2
      ⟨["e1"], false⟩ [sampleEntry]⟩

/-- Claim C7: status guard: an enqueued id whose stored entry is not in
processing status is left untouched by the drain (the exact record stays in
the store) and no extraction call is made for it. -/
theorem claim7_status_guard (dv : String → Int) (now : String)
    (ext : Entry → FetchOutcome) (q : List String) (store : List Entry)
    (e : Entry) (hnd : (store.map Entry.id).Nodup) (he : e ∈ store)
    (hterm : e.processingStatus ≠ "processing") (hq : e.id ∈ q) :
    e ∈ (drainLoop dv now ext q store).1 ∧
    countStarts e.id (drainLoop dv now ext q store).2 = 0 :=
  dl_terminal_skip dv now ext q store hnd he hterm

/-- Witness for C7: a complete entry survives a drain of its own id
unchanged, with zero extraction calls. -/
theorem claim7_witness :
    completeEntry ∈ (drainLoop dvZero "2024-01-02T00:00:00.000Z" extReject
      ["c1"] [completeEntry]).1 ∧
    countStarts completeEntry.id (drainLoop dvZero "2024-01-02T00:00:00.000Z"
      extReject ["c1"] [completeEntry]).2 = 0 :=
  claim7_status_guard dvZero "2024-01-02T00:00:00.000Z" extReject ["c1"]
    [completeEntry] completeEntry (by decide) (List.mem_cons_self _ _)
    (by decide) (by decide)

/-- Claim C8: not-found skip: enqueuing an id with no stored entry and
draining completes (the model drain is a total function), makes no
extraction call, and leaves the store exactly as it was. -/
theorem claim8_not_found_skip (dv : String → Int) (now : String)
    (ext : Entry → FetchOutcome) (store : List Entry) (i : String)
    (h : ∀ e ∈ store, e.id ≠ i) :
    addToProcessingQueue dv now ext ⟨[], false⟩ store i =
      (⟨[], false⟩, store, []) := by
  have hds := ds_not_found dv now ext h
  simp [addToProcessingQueue, setAdd, processQueue, drainLoop, hds]

/-- Witness for C8 at a concrete store and id. -/
theorem claim8_witness :
    addToProcessingQueue dvZero "2024-01-02T00:00:00.000Z" extReject
      ⟨[], false⟩ [sampleEntry] "missing" =
      (⟨[], false⟩, [sampleEntry], []) :=
  claim8_not_found_skip dvZero "2024-01-02T00:00:00.000Z" extReject
    [sampleEntry] "missing" (by decide)

/-- Claim C10: a draft whose text is absent or empty is rejected by
validation before any write: saveNoteForProcessing returns success false
with a null entryId and the stored collection is unchanged. -/
theorem claim10_empty_text_rejected (dv : String → Int) (now freshId : String)
    (store : List Entry) (d : Draft) (h : d.text = none ∨ d.text = some "") :
    saveNoteForProcessing dv now freshId store d = (store, false, none) := by
  have htext : (buildProcessingEntry now freshId d).text = "" := by
    rcases h with h | h <;> simp [buildProcessingEntry, jsOrStr, h]
  have hval : validateFoodLogEntry (buildProcessingEntry now freshId d) = false := by
    simp [validateFoodLogEntry, htext]
  simp [saveNoteForProcessing, hval]

/-- Witness for C10 at a concrete draft with empty text. -/
theorem claim10_witness :
    saveNoteForProcessing dvZero "2024-01-02T00:00:00.000Z" "id9" [sampleEntry]
      { text := some "", source := some "voice" } =
      ([sampleEntry], false, none) :=
  claim10_empty_text_rejected dvZero "2024-01-02T00:00:00.000Z" "id9"
    [sampleEntry] { text := some "", source := some "voice" } (Or.inr rfl)

/-- Claim C1: per-item failure isolation: when the extraction step fails for
an enqueued note in processing state (rejected fetch, timeout, non-2xx
response or invalid body shape are all the error case of extractionResult),
the drain marks that entry failed with a non-null processingError, and the
loop does not abort: every other enqueued note in processing state whose
extraction succeeds still ends the drain in complete state. -/
theorem claim1_failure_isolated (dv : String → Int) (now : String)
    (ext : Entry → FetchOutcome) (q : List String) (store : List Entry)
    (i msg : String) (e : Entry)
    (hq : q.Nodup) (hnd : (store.map Entry.id).Nodup) (hiq : i ∈ q)
    (he : e ∈ store) (hid : e.id = i)
    (hproc : e.processingStatus = "processing")
    (hfail : extractionResult (ext e) = Except.error msg) :
    (∃ y, y ∈ (drainLoop dv now ext q store).1 ∧ y.id = i ∧
      y.processingStatus = "failed" ∧ y.processingError ≠ none) ∧
    (∀ j e2 x, j ∈ q → j ≠ i → e2 ∈ store → e2.id = j →
      e2.processingStatus = "processing" →
      extractionResult (ext e2) = Except.ok x →
      ∃ y, y ∈ (drainLoop dv now ext q store).1 ∧ y.id = j ∧
        y.processingStatus = "complete") := by
  constructor
  · obtain ⟨y, hy, hyi, hyst, hyerr⟩ :=
      dl_fail_final dv now ext q store hq hnd hiq he hid hproc hfail
    exact ⟨y, hy, hyi, hyst, by rw [hyerr]; exact Option.some_ne_none msg⟩
  · intro j e2 x hjq _ he2 hid2 hproc2 hok
    obtain ⟨y, hy, hyi, hyst, _⟩ :=
      dl_success_final dv now ext q store hq hnd hjq he2 hid2 hproc2 hok
    exact ⟨y, hy, hyi, hyst⟩

/-- Witness for C1: one note whose extraction rejects, one whose extraction
succeeds; both are drained, the first ends failed with an error message, the
second ends complete. -/
theorem claim1_witness :
    (∃ y, y ∈ (drainLoop dvZero "2024-01-02T00:00:00.000Z" extMixed
        ["e1", "e2"] [sampleEntry, sampleEntry2]).1 ∧ y.id = "e1" ∧
      y.processingStatus = "failed" ∧ y.processingError ≠ none) ∧
    (∀ j e2 x, j ∈ ["e1", "e2"] → j ≠ "e1" →
      e2 ∈ [sampleEntry, sampleEntry2] → e2.id = j →
      e2.processingStatus = "processing" →
      extractionResult (extMixed e2) = Except.ok x →
      ∃ y, y ∈ (drainLoop dvZero "2024-01-02T00:00:00.000Z" extMixed
        ["e1", "e2"] [sampleEntry, sampleEntry2]).1 ∧ y.id = j ∧
        y.processingStatus = "complete") :=
  claim1_failure_isolated dvZero "2024-01-02T00:00:00.000Z" extMixed
    ["e1", "e2"] [sampleEntry, sampleEntry2] "e1" "boom" sampleEntry
    (by decide) (by decide) (by decide) (List.mem_cons_self _ _) rfl rfl rfl

/-- Claim C2: round-trip: when saveNoteForProcessing succeeds on a draft with
non-empty text and source voice (and a genuinely fresh generated id), the
returned id is that fresh id, and any later getAll read of the resulting
store contains exactly one entry with that id, carrying the draft text,
source voice, processingStatus processing and empty foods and reactions. -/
theorem claim2_roundtrip (dv dvq : String → Int) (now freshId : String)
    (store : List Entry) (d : Draft) (t : String)
    (hdid : d.id = none) (htext : d.text = some t) (ht : t ≠ "")
    (hsource : d.source = some "voice")
    (hfresh : freshId ∉ store.map Entry.id)
    (hok : (saveNoteForProcessing dv now freshId store d).2.1 = true) :
    (saveNoteForProcessing dv now freshId store d).2.2 = some freshId ∧
    ((getFoodLogs dvq (saveNoteForProcessing dv now freshId store d).1).filter
      (fun e => e.id == freshId)).length = 1 ∧
    ∀ e ∈ getFoodLogs dvq (saveNoteForProcessing dv now freshId store d).1,
      e.id = freshId → e.text = t ∧ e.source = "voice" ∧
        e.processingStatus = "processing" ∧ e.foods = JsonVal.arr [] ∧
        e.reactions = JsonVal.arr [] := by
  have hbid : (buildProcessingEntry now freshId d).id = freshId := by
    simp [buildProcessingEntry, jsOrStr, hdid]
  have hbtext : (buildProcessingEntry now freshId d).text = t := by
    simp [buildProcessingEntry, jsOrStr, htext, ht]
  have hbsource : (buildProcessingEntry now freshId d).source = "voice" := by
    simp [buildProcessingEntry, jsOrStr, hsource]
  have hval : validateFoodLogEntry (buildProcessingEntry now freshId d) = true := by
    by_cases hv : validateFoodLogEntry (buildProcessingEntry now freshId d)
    · exact hv
    · exfalso
      rw [show saveNoteForProcessing dv now freshId store d = (store, false, none) by
        simp [saveNoteForProcessing, hv]] at hok
      exact Bool.false_ne_true hok
  have hsave : saveNoteForProcessing dv now freshId store d =
      (buildProcessingEntry now freshId d :: getFoodLogs dv store, true,
        some (buildProcessingEntry now freshId d).id) := by
    simp [saveNoteForProcessing, hval]
  rw [hsave]
  have hother : ∀ z ∈ getFoodLogs dv store, z.id ≠ freshId := by
    intro z hz hzid
    exact hfresh (hzid ▸ List.mem_map_of_mem Entry.id (gfl_mem.mp hz))
  refine ⟨by rw [hbid], ?_, ?_⟩
  · rw [← List.countP_eq_length_filter]
    rw [(gfl_perm dvq _).countP_eq]
    rw [List.countP_cons]
    have h0 : (getFoodLogs dv store).countP (fun e => e.id == freshId) = 0 :=
      List.countP_eq_zero.mpr (fun z hz => by simp [hother z hz])
    simp [h0, hbid]
  · intro e he heid
    have : e ∈ buildProcessingEntry now freshId d :: getFoodLogs dv store :=
      (gfl_perm dvq _).mem_iff.mp he
    rcases List.mem_cons.mp this with h | h
    · subst h
      exact ⟨hbtext, hbsource, rfl, rfl, rfl⟩
    · exact absurd heid (hother e h)

/-- Witness for C2: saving a voice draft into an empty store and reading it
back. -/
theorem claim2_witness :
    (saveNoteForProcessing dvZero "2024-01-02T00:00:00.000Z" "id1" []
      { text := some "t", source := some "voice" }).2.2 = some "id1" ∧
    ((getFoodLogs dvZero (saveNoteForProcessing dvZero
        "2024-01-02T00:00:00.000Z" "id1" []
        { text := some "t", source := some "voice" }).1).filter
      (fun e => e.id == "id1")).length = 1 ∧
    ∀ e ∈ getFoodLogs dvZero (saveNoteForProcessing dvZero
        "2024-01-02T00:00:00.000Z" "id1" []
        { text := some "t", source := some "voice" }).1,
      e.id = "id1" → e.text = "t" ∧ e.source = "voice" ∧
        e.processingStatus = "processing" ∧ e.foods = JsonVal.arr [] ∧
        e.reactions = JsonVal.arr [] :=
  claim2_roundtrip dvZero dvZero "2024-01-02T00:00:00.000Z" "id1" []
    { text := some "t", source := some "voice" } "t" rfl rfl (by decide) rfl
    (by decide) (by decide)

/-- Claim C3 counterexample: with a null extraction payload the source
throws a TypeError at the extractionData.foods access, the catch converts it
to a false return and nothing is written - so an existing entry does not
yield true with a completed update, refuting the claim's found branch. -/
theorem claim3_counterexample :
    sampleEntry.id = "e1" ∧ sampleEntry ∈ [sampleEntry] ∧
    updateNoteWithExtraction dvZero "2024-02-02T00:00:00.000Z" [sampleEntry]
      "e1" JsonVal.null = ([sampleEntry], false) :=
  ⟨rfl, List.mem_cons_self _ _, rfl⟩

/-- Claim C3 as amended: updateWithExtraction returns false leaving the store
unchanged when no entry has the id, and also returns false with no write when
the payload is null (property access on it throws, the catch converts the
TypeError to false); when an entry exists (ids unique) and the payload is
non-null it returns true, keeps every other entry, and the updated entry has
processingStatus complete, a stamped extractionTimestamp and
processingCompletedAt, and foods/reactions taken from the payload sequences,
defaulting to empty when absent. -/
theorem claim3_update_with_extraction (dv : String → Int) (now : String)
    (store : List Entry) (i : String) (x : JsonVal) :
    ((∀ e ∈ store, e.id ≠ i) →
      updateNoteWithExtraction dv now store i x = (store, false)) ∧
    (jsAccessThrows x = true →
      updateNoteWithExtraction dv now store i x = (store, false)) ∧
    (∀ e ∈ store, e.id = i → (store.map Entry.id).Nodup →
      jsAccessThrows x = false →
      (updateNoteWithExtraction dv now store i x).2 = true ∧
      (∀ z ∈ store, z.id ≠ i →
        z ∈ (updateNoteWithExtraction dv now store i x).1) ∧
      ∀ y ∈ (updateNoteWithExtraction dv now store i x).1, y.id = i →
        y.processingStatus = "complete" ∧
        y.extractionTimestamp = some now ∧
        y.processingCompletedAt = some now ∧
        (∀ l, getField x "foods" = some (JsonVal.arr l) →
          y.foods = JsonVal.arr l) ∧
        (getField x "foods" = none → y.foods = JsonVal.arr []) ∧
        (∀ l, getField x "reactions" = some (JsonVal.arr l) →
          y.reactions = JsonVal.arr l) ∧
        (getField x "reactions" = none → y.reactions = JsonVal.arr [])) := by
  refine ⟨?_, ?_, ?_⟩
  · intro h
    exact updateNote_not_found h
  · intro hx
    exact updateNote_throws hx
  · intro e he hid hnd hx
    obtain ⟨S, hr, _, hframe, huniq, _⟩ := updateNote_found dv now hnd he hid hx
    rw [hr]
    refine ⟨rfl, hframe, ?_⟩
    intro y hy hyi
    rw [huniq y hy hyi]
    refine ⟨rfl, rfl, rfl, ?_, ?_, ?_, ?_⟩
    · intro l hl; simp [applyExtraction, hl, truthy]
    · intro hl; simp [applyExtraction, hl]
    · intro l hl; simp [applyExtraction, hl, truthy]
    · intro hl; simp [applyExtraction, hl]

/-- Witness for C3 amended: the not-found branch on an empty store, the
null-payload branch on a populated store, and the found branch updating a
processing entry with a one-food payload. -/
theorem claim3_witness :
    (updateNoteWithExtraction dvZero "2024-02-02T00:00:00.000Z" [] "e1"
      payloadFoods = ([], false)) ∧
    (updateNoteWithExtraction dvZero "2024-02-02T00:00:00.000Z" [sampleEntry2]
      "e2" JsonVal.null = ([sampleEntry2], false)) ∧
    ((updateNoteWithExtraction dvZero "2024-02-02T00:00:00.000Z" [sampleEntry]
        "e1" payloadFoods).2 = true ∧
      (∀ z ∈ [sampleEntry], z.id ≠ "e1" →
        z ∈ (updateNoteWithExtraction dvZero "2024-02-02T00:00:00.000Z"
          [sampleEntry] "e1" payloadFoods).1) ∧
      ∀ y ∈ (updateNoteWithExtraction dvZero "2024-02-02T00:00:00.000Z"
          [sampleEntry] "e1" payloadFoods).1, y.id = "e1" →
        y.processingStatus = "complete" ∧
        y.extractionTimestamp = some "2024-02-02T00:00:00.000Z" ∧
        y.processingCompletedAt = some "2024-02-02T00:00:00.000Z" ∧
        (∀ l, getField payloadFoods "foods" = some (JsonVal.arr l) →
          y.foods = JsonVal.arr l) ∧
        (getField payloadFoods "foods" = none → y.foods = JsonVal.arr []) ∧
        (∀ l, getField payloadFoods "reactions" = some (JsonVal.arr l) →
          y.reactions = JsonVal.arr l) ∧
        (getField payloadFoods "reactions" = none →
          y.reactions = JsonVal.arr [])) :=
  ⟨(claim3_update_with_extraction dvZero "2024-02-02T00:00:00.000Z" [] "e1"
      payloadFoods).1 (by simp),
    (claim3_update_with_extraction dvZero "2024-02-02T00:00:00.000Z"
      [sampleEntry2] "e2" JsonVal.null).2.1 rfl,
    (claim3_update_with_extraction dvZero "2024-02-02T00:00:00.000Z"
      [sampleEntry] "e1" payloadFoods).2.2 sampleEntry
      (List.mem_cons_self _ _) rfl (by decide) rfl⟩

/-- Claim C4 counterexample: the code accepts a two-element n8n array
(unwrapping its first element), which the claim restricts to one-element
sequences, and the code rejects a direct object whose extractedData field is
present but null, which the claim accepts as a present field. -/
theorem claim4_counterexample :
    (normalizeExtraction twoElemResponse =
        Except.ok (JsonVal.obj [("foods", JsonVal.arr [])]) ∧
      specNormalizeSuccess twoElemResponse = false) ∧
    (specNormalizeSuccess nullExtractedResponse = true ∧
      normalizeExtraction nullExtractedResponse = Except.error
        "Invalid extraction response format - expected n8n array or direct object") :=
  ⟨⟨rfl, rfl⟩, ⟨rfl, rfl⟩⟩

/-- Claim C4 as amended: normalization succeeds exactly when the body is a
non-empty sequence whose first element has a truthy values field with status
"success" and truthy extractedData, or a non-sequence value with status
"success" and truthy extractedData; in each case the unwrapped extractedData
is returned; any other shape or status is a hard failure. -/
theorem claim4_amended_normalization (d : JsonVal) :
    ((∃ x, normalizeExtraction d = Except.ok x) ↔
      amendedNormalizeSuccess d = true) ∧
    (∀ w rest v x, d = JsonVal.arr (w :: rest) →
      getField w "values" = some v → truthy v = true →
      statusSuccessField v = true → getField v "extractedData" = some x →
      truthy x = true → normalizeExtraction d = Except.ok x) ∧
    (∀ x, (∀ w rest, d ≠ JsonVal.arr (w :: rest)) →
      statusSuccessField d = true → getField d "extractedData" = some x →
      truthy x = true → normalizeExtraction d = Except.ok x) := by
  refine ⟨?_, ?_, ?_⟩
  · cases d with
    | arr l =>
      cases l with
      | nil =>
        simp [normalizeExtraction, amendedNormalizeSuccess, statusSuccessField,
          getField, jsAccessThrows]
      | cons w rest =>
        by_cases hw : jsAccessThrows w = true
        · have hwn : w = JsonVal.null := by
            cases w <;> simp_all [jsAccessThrows]
          subst hwn
          simp [normalizeExtraction, amendedNormalizeSuccess, getField,
            jsAccessThrows]
        · simp only [normalizeExtraction, amendedNormalizeSuccess, if_neg hw]
          cases hv : getField w "values" with
          | none => simp
          | some v =>
            by_cases htv : truthy v
            · by_cases hs : statusSuccessField v
              · cases hx : getField v "extractedData" with
                | none => simp [htv, hs, truthyField, hx]
                | some x =>
                  by_cases htx : truthy x
                  · simp [htv, hs, htx, truthyField, hx]
                  · simp [htv, hs, htx, truthyField, hx]
              · simp [htv, hs]
            · simp [htv]
    | obj fs =>
      simp only [normalizeExtraction, amendedNormalizeSuccess, jsAccessThrows]
      by_cases hs : statusSuccessField (JsonVal.obj fs)
      · cases hx : getField (JsonVal.obj fs) "extractedData" with
        | none => simp [hs, truthyField, hx]
        | some x =>
          by_cases htx : truthy x
          · simp [hs, htx, truthyField, hx]
          · simp [hs, htx, truthyField, hx]
      · simp [hs]
    | null => simp [normalizeExtraction, amendedNormalizeSuccess,
        statusSuccessField, getField, jsAccessThrows]
    | bool b => simp [normalizeExtraction, amendedNormalizeSuccess,
        statusSuccessField, getField, jsAccessThrows]
    | num n => simp [normalizeExtraction, amendedNormalizeSuccess,
        statusSuccessField, getField, jsAccessThrows]
    | str s => simp [normalizeExtraction, amendedNormalizeSuccess,
        statusSuccessField, getField, jsAccessThrows]
  · rintro w rest v x rfl hv htv hs hx htx
    simp [normalizeExtraction, getField_some_not_throws hv, hv, htv, hs, hx, htx]
  · intro x hno hs hx htx
    cases d with
    | arr l =>
      cases l with
      | nil => simp [statusSuccessField, getField] at hs
      | cons w rest => exact absurd rfl (hno w rest)
    | obj fs => simp [normalizeExtraction, jsAccessThrows, hs, hx, htx]
    | null => simp [statusSuccessField, getField] at hs
    | bool b => simp [statusSuccessField, getField] at hs
    | num n => simp [statusSuccessField, getField] at hs
    | str s => simp [statusSuccessField, getField] at hs

/-- Witness for C4 amended: a one-element n8n response normalizes to its
unwrapped extractedData. -/
theorem claim4_witness :
    (∃ x, normalizeExtraction oneElemResponse = Except.ok x) ∧
    normalizeExtraction oneElemResponse =
      Except.ok (JsonVal.obj [("foods", JsonVal.arr [])]) :=
  ⟨(claim4_amended_normalization oneElemResponse).1.mpr (by decide),
    (claim4_amended_normalization oneElemResponse).2.1 n8nOkElem []
      (JsonVal.obj [("status", JsonVal.str "success"),
        ("extractedData", JsonVal.obj [("foods", JsonVal.arr [])])])
      (JsonVal.obj [("foods", JsonVal.arr [])]) rfl rfl rfl rfl rfl rfl⟩

/-- Claim C9 counterexample: the Repository operation updateNoteWithExtraction
applies no status guard: on an entry already in the terminal failed state it
still reports success and flips processingStatus to complete, so a terminal
status can transition again at the Repository level. -/
theorem claim9_counterexample :
    failedEntry.processingStatus = "failed" ∧
    (updateNoteWithExtraction dvZero "2024-02-03T00:00:00.000Z" [failedEntry]
      "f1" payloadFoods).2 = true ∧
    ((updateNoteWithExtraction dvZero "2024-02-03T00:00:00.000Z" [failedEntry]
      "f1" payloadFoods).1.map Entry.processingStatus) = ["complete"] :=
  ⟨rfl, rfl, rfl⟩

/-- Claim C9 as amended: updateNoteWithExtraction applies no status guard:
for any non-null payload (one whose property access does not throw) it sets
the located entry to complete regardless of its prior, possibly terminal,
status; markNoteProcessingFailed always sets the located entry to failed with
the given message, again regardless of prior status; and the general update
operation preserves every entry's processingStatus whenever the patch does
not itself carry a processingStatus field. -/
theorem claim9_amended_transitions (dv : String → Int) (now : String) :
    (∀ (store : List Entry) (i : String) (x : JsonVal) (e : Entry),
      (store.map Entry.id).Nodup → e ∈ store → e.id = i →
      jsAccessThrows x = false →
      ∀ y ∈ (updateNoteWithExtraction dv now store i x).1, y.id = i →
        y.processingStatus = "complete") ∧
    (∀ (store : List Entry) (i msg : String) (e : Entry),
      (store.map Entry.id).Nodup → e ∈ store → e.id = i →
      ∀ y ∈ (markNoteProcessingFailed dv now store i msg).1, y.id = i →
        y.processingStatus = "failed" ∧ y.processingError = some msg) ∧
    (∀ (store : List Entry) (i : String) (p : Patch),
      p.processingStatus = none →
      List.Perm ((updateFoodLogEntry dv store i p).1.map
        (fun e => (e.id, e.processingStatus)))
        (store.map (fun e => (e.id, e.processingStatus)))) := by
  refine ⟨?_, ?_, ?_⟩
  · intro store i x e hnd he hid hx y hy hyi
    obtain ⟨S, hr, _, _, huniq, _⟩ := updateNote_found dv now hnd he hid hx
    rw [hr] at hy
    rw [huniq y hy hyi]
    rfl
  · intro store i msg e hnd he hid y hy hyi
    obtain ⟨S, hr, _, _, huniq, _⟩ :=
      repoUpdate_found dv (markFailedEntry now msg) hnd he hid rfl
    rw [show markNoteProcessingFailed dv now store i msg = (S, true) from hr] at hy
    rw [huniq y hy hyi]
    exact ⟨rfl, rfl⟩
  · intro store i p hp
    rcases hrep : replaceFirstById (mergeEntry p) i (getFoodLogs dv store) with
      _ | ⟨e, logs2⟩
    · simp only [updateFoodLogEntry, hrep]
      exact List.Perm.refl _
    · have hmap := replaceFirstById_map_proj
        (fun z => (z.id, z.processingStatus)) (mergeEntry p)
        (fun z => by simp [mergeEntry, hp]) hrep
      by_cases hv : validateFoodLogEntry (mergeEntry p e) = true
      · simp only [updateFoodLogEntry, hrep, hv, if_true]
        rw [hmap]
        exact (gfl_perm dv store).map _
      · simp only [updateFoodLogEntry, hrep, if_neg hv]
        exact List.Perm.refl _

/-- Witness for C9 amended: a failed entry flipped to complete by the
extraction update, a complete entry flipped to failed by the failure marker,
and a status-free patch preserving the id-and-status multiset. -/
theorem claim9_witness :
    (∀ y ∈ (updateNoteWithExtraction dvZero "2024-02-03T00:00:00.000Z"
      [failedEntry] "f1" payloadFoods).1, y.id = "f1" →
      y.processingStatus = "complete") ∧
    (∀ y ∈ (markNoteProcessingFailed dvZero "2024-02-03T00:00:00.000Z"
      [completeEntry] "c1" "late failure").1, y.id = "c1" →
      y.processingStatus = "failed" ∧ y.processingError = some "late failure") ∧
    List.Perm ((updateFoodLogEntry dvZero [completeEntry] "c1"
      { text := some "edited" }).1.map (fun e => (e.id, e.processingStatus)))
      ([completeEntry].map (fun e => (e.id, e.processingStatus))) :=
  ⟨(claim9_amended_transitions dvZero "2024-02-03T00:00:00.000Z").1
      [failedEntry] "f1" payloadFoods failedEntry (by decide)
      (List.mem_cons_self _ _) rfl rfl,
    (claim9_amended_transitions dvZero "2024-02-03T00:00:00.000Z").2.1
      [completeEntry] "c1" "late failure" completeEntry (by decide)
      (List.mem_cons_self _ _) rfl,
    (claim9_amended_transitions dvZero "2024-02-03T00:00:00.000Z").2.2
      [completeEntry] "c1" { text := some "edited" } rfl⟩

end Crumb
